import Mathlib

/-!
# Verification of the `Navigation` scan-message component

A shallow embedding of `src/include/navigation/navigation_type.h`
(namespace `Navigation`): the `NaviStatus` enumeration with its
name-lookup function, and the `ScanMessage` class holding one lidar
sweep in Cartesian (`x_y`) or polar (`radius_theta`) form, with lazy
conversion, theta-ascending sorting, and the minimum-radius-within-
bearing-window smoothing filter.

Modelling conventions:
* C++ `float` values are modelled as exact rationals (`ℚ`).
* The hard-coded window half-width `delta_theta = 0.5 * M_PI / 512`
  is a fixed positive constant of the code; since its value is
  irrational it is abstracted as an explicit parameter `dt : ℚ` of the
  smoothing filter, and theorems quantify over it (with positivity
  hypotheses where the arguments require them).
* Library calls with transcendental results (`cosf`, `sinf`,
  `hypotf`, `atan2f`) are abstracted as function parameters; no claim
  under study depends on their numeric values.
* The stateful member functions of `ScanMessage` become functions
  from the record state to (result, new state).
* `std::sort` with the strict `theta <` comparator produces some
  theta-nondecreasing permutation of its input; it is modelled by
  `List.mergeSort` with the non-strict comparison `theta ≤`.
-/

namespace Navigation

/-- The `NaviStatus` enumeration (values 0..6). -/
inductive NaviStatus
  | NORMAL
  | LOST
  | OBSTACLE_AVOID
  | STOP
  | STANDBY
  | MANUAL
  | LOST_RECOVERY
deriving DecidableEq, Repr

/-- `NaviStatusToString`: the if/else chain of the source, in source
order (`NORMAL`, `LOST`, `LOST_RECOVERY`, `OBSTACLE_AVOID`, `STOP`,
`STANDBY`, else `"unknown"`), with the source's literal strings. -/
def NaviStatusToString (navi_status : NaviStatus) : String :=
  if navi_status = NaviStatus.NORMAL then "NORNAL"
  else if navi_status = NaviStatus.LOST then "LOST"
  else if navi_status = NaviStatus.LOST_RECOVERY then "LOST_RECOVERY"
  else if navi_status = NaviStatus.OBSTACLE_AVOID then "OBSTACLE_AVOID"
  else if navi_status = NaviStatus.STOP then "STOP"
  else if navi_status = NaviStatus.STANDBY then "STANDBY"
  else "unknown"

/-- Polar sample `radius_theta { float radius; float theta; }`. -/
structure radius_theta where
  radius : ℚ
  theta : ℚ
deriving DecidableEq, Repr

/-- Cartesian sample `x_y { float x; float y; }`. -/
structure x_y where
  x : ℚ
  y : ℚ
deriving DecidableEq, Repr

/-- C `fabs`, on the rational model of `float`. -/
def fabs (a : ℚ) : ℚ := if a < 0 then -a else a

/-- C `fmin`, on the rational model of `float`. -/
def fmin (a b : ℚ) : ℚ := if a ≤ b then a else b

/-- Indexing `v[j]` into a modelled `std::vector` (the source only
indexes within bounds; out-of-range reads fall back to a default). -/
def nth (l : List radius_theta) (j : ℕ) : radius_theta :=
  l.getD j ⟨0, 0⟩

/-- The leftward scan of `compute_smallest_r_within_delta_theta`:
`while (j >= 0) { if (fabs(copy[j].theta - t) > dt) break;
r = fmin(r, copy[j].radius); j--; }`, started at `j`. -/
def leftMin (dt : ℚ) (c : List radius_theta) (t : ℚ) : ℕ → ℚ → ℚ
  | 0, r =>
    if fabs ((nth c 0).theta - t) > dt then r else fmin r (nth c 0).radius
  | j + 1, r =>
    if fabs ((nth c (j + 1)).theta - t) > dt then r
    else leftMin dt c t j (fmin r (nth c (j + 1)).radius)

/-- The rightward scan of `compute_smallest_r_within_delta_theta`,
expressed on the list suffix it traverses:
`while (j < copy.size()) { if (fabs(copy[j].theta - t) > dt) break;
r = fmin(r, copy[j].radius); j++; }`. -/
def rightGo (dt : ℚ) (t : ℚ) : List radius_theta → ℚ → ℚ
  | [], r => r
  | p :: ps, r =>
    if fabs (p.theta - t) > dt then r else rightGo dt t ps (fmin r p.radius)

/-- The rightward scan started at index `j` of `c`. -/
def rightMin (dt : ℚ) (c : List radius_theta) (t : ℚ) (j : ℕ) (r : ℚ) : ℚ :=
  rightGo dt t (c.drop j) r

/-- `ScanMessage::compute_smallest_r_within_delta_theta`: for each
index `i`, scan left then right from `i` over a frozen copy of the
input, taking the running minimum radius, and stop each scan at the
first index whose `theta` differs from `theta_i` by more than `dt`.
The C++ mutates `(*scan_rt)[i]` in place but reads only `scan_rt_copy`
(and `rt.theta`, which it never writes), and iteration `i` writes only
position `i`; so the pass is the following index-wise map. -/
def compute_smallest_r_within_delta_theta
    (dt : ℚ) (scan_rt : List radius_theta) : List radius_theta :=
  (List.range scan_rt.length).map fun i =>
    let rt := nth scan_rt i
    { radius := rightMin dt scan_rt rt.theta i (leftMin dt scan_rt rt.theta i rt.radius),
      theta := rt.theta }

/-- `ScanMessage::thetaAscendingSortScanRT`: `std::sort` by
`first.theta < second.theta`, modelled as a theta-nondecreasing
permutation via merge sort. -/
def thetaAscendingSortScanRT (scan_rt : List radius_theta) : List radius_theta :=
  scan_rt.mergeSort fun first second => first.theta ≤ second.theta

/-- `ScanMessage::XYtoRT`, with `hypotf` and `atan2f` abstracted. -/
def XYtoRT (hypotf atan2f : ℚ → ℚ → ℚ) (xy : x_y) : radius_theta :=
  { radius := hypotf xy.x xy.y, theta := atan2f xy.y xy.x }

/-- `ScanMessage::RTtoXY`, with `cosf` and `sinf` abstracted. -/
def RTtoXY (cosf sinf : ℚ → ℚ) (rt : radius_theta) : x_y :=
  { x := rt.radius * cosf rt.theta, y := rt.radius * sinf rt.theta }

/-- `ScanMessage::scanXYtoRT`: clears the output then converts each
sample in order (the early return on empty input yields the empty
list, as does the map). -/
def scanXYtoRT (hypotf atan2f : ℚ → ℚ → ℚ) (input_scan_xy : List x_y) :
    List radius_theta :=
  input_scan_xy.map (XYtoRT hypotf atan2f)

/-- `ScanMessage::scanRTtoXY`. -/
def scanRTtoXY (cosf sinf : ℚ → ℚ) (input_scan_rt : List radius_theta) :
    List x_y :=
  input_scan_rt.map (RTtoXY cosf sinf)

/-- The state of a `ScanMessage` object: timestamp `tp_` (modelled as
a rational clock value), the two backing sequences, and the
`sorted_by_theta_` flag. -/
structure ScanMessage where
  tp : ℚ
  scan_xy : List x_y
  scan_rt : List radius_theta
  sorted_by_theta : Bool
deriving DecidableEq, Repr

namespace ScanMessage

/-- The no-argument constructor `ScanMessage() {}`. Its member-init
list is empty, so `sorted_by_theta_` (a plain `bool`) is left
indeterminate; `uninit` stands for whatever value that memory holds.
The vectors default-construct empty and the `time_point` member
value-initializes to the clock epoch (modelled `0`). -/
def mkEmpty (uninit : Bool) : ScanMessage :=
  { tp := 0, scan_xy := [], scan_rt := [], sorted_by_theta := uninit }

/-- Constructor from a `time_point`: initializes the flag to `false`. -/
def mkTP (input_tp : ℚ) : ScanMessage :=
  { tp := input_tp, scan_xy := [], scan_rt := [], sorted_by_theta := false }

/-- Constructor from a Cartesian sequence. -/
def mkXY (input_scan_xy : List x_y) : ScanMessage :=
  { tp := 0, scan_xy := input_scan_xy, scan_rt := [], sorted_by_theta := false }

/-- Constructor from a polar sequence. -/
def mkRT (input_scan_rt : List radius_theta) : ScanMessage :=
  { tp := 0, scan_xy := [], scan_rt := input_scan_rt, sorted_by_theta := false }

/-- Constructor from a Cartesian sequence and a `time_point`. -/
def mkXYTP (input_scan_xy : List x_y) (input_tp : ℚ) : ScanMessage :=
  { tp := input_tp, scan_xy := input_scan_xy, scan_rt := [],
    sorted_by_theta := false }

/-- Constructor from a polar sequence and a `time_point`. -/
def mkRTTP (input_scan_rt : List radius_theta) (input_tp : ℚ) : ScanMessage :=
  { tp := input_tp, scan_xy := [], scan_rt := input_scan_rt,
    sorted_by_theta := false }

/-- `ScanMessage::getScanXY`: if `scan_xy_` is empty and `scan_rt_` is
not, fill `scan_xy_` from `scan_rt_`; return `scan_xy_`. -/
def getScanXY (cosf sinf : ℚ → ℚ) (m : ScanMessage) :
    List x_y × ScanMessage :=
  if m.scan_xy.isEmpty && !m.scan_rt.isEmpty then
    let xy := scanRTtoXY cosf sinf m.scan_rt
    (xy, { m with scan_xy := xy })
  else
    (m.scan_xy, m)

/-- `ScanMessage::getScanRT`: derive polar from Cartesian when needed
(resetting the flag), sort when `need_sort` and the flag is unset
(setting the flag), then unconditionally smooth in place and return
`scan_rt_`. -/
def getScanRT (hypotf atan2f : ℚ → ℚ → ℚ) (dt : ℚ) (m : ScanMessage)
    (need_sort : Bool) : List radius_theta × ScanMessage :=
  let m1 :=
    if m.scan_rt.isEmpty && !m.scan_xy.isEmpty then
      { m with scan_rt := scanXYtoRT hypotf atan2f m.scan_xy,
               sorted_by_theta := false }
    else m
  let m2 :=
    if need_sort && !m1.sorted_by_theta then
      { m1 with scan_rt := thetaAscendingSortScanRT m1.scan_rt,
                sorted_by_theta := true }
    else m1
  let m3 := { m2 with
    scan_rt := compute_smallest_r_within_delta_theta dt m2.scan_rt }
  (m3.scan_rt, m3)

/-- `ScanMessage::setScanXY`: replace `scan_xy_`, clear `scan_rt_`
(the flag is not touched). -/
def setScanXY (m : ScanMessage) (input_scan_xy : List x_y) : ScanMessage :=
  { m with scan_xy := input_scan_xy, scan_rt := [] }

/-- `ScanMessage::setScanRT`: replace `scan_rt_`, clear `scan_xy_`,
set the flag to the caller's (unverified) `is_sorted`. -/
def setScanRT (m : ScanMessage) (input_scan_rt : List radius_theta)
    (is_sorted : Bool) : ScanMessage :=
  { m with scan_rt := input_scan_rt, scan_xy := [],
           sorted_by_theta := is_sorted }

/-- `ScanMessage::scan_xy_push_back`. -/
def scan_xy_push_back (m : ScanMessage) (xy : x_y) : ScanMessage :=
  { m with scan_xy := m.scan_xy ++ [xy], scan_rt := [],
           sorted_by_theta := false }

/-- `ScanMessage::scan_rt_push_back`. -/
def scan_rt_push_back (m : ScanMessage) (rt : radius_theta)
    (in_order : Bool) : ScanMessage :=
  { m with scan_rt := m.scan_rt ++ [rt], scan_xy := [],
           sorted_by_theta := in_order }

/-- `ScanMessage::scan_clear`. -/
def scan_clear (m : ScanMessage) : ScanMessage :=
  { m with scan_xy := [], scan_rt := [], sorted_by_theta := false }

end ScanMessage

/-- The polar sequence is in ascending-`theta` order (the order
`thetaAscendingSortScanRT` establishes). -/
def SortedRT (l : List radius_theta) : Prop :=
  l.Pairwise fun first second => first.theta ≤ second.theta

instance (l : List radius_theta) : Decidable (SortedRT l) := by
  unfold SortedRT; infer_instance

/-! ## Basic lemmas about the C arithmetic helpers -/

theorem fmin_eq_min (a b : ℚ) : fmin a b = min a b := by
  rw [fmin, min_def]

theorem fabs_eq_abs (a : ℚ) : fabs a = |a| := by
  rw [fabs]
  split
  · rw [abs_of_neg]; assumption
  · rw [abs_of_nonneg]; exact not_lt.mp (by assumption)

/-! ## Lemmas about the two scan loops of the smoothing filter -/

theorem leftMin_le_init (dt : ℚ) (c : List radius_theta) (t : ℚ) :
    ∀ (j : ℕ) (r : ℚ), leftMin dt c t j r ≤ r
  | 0, r => by
    rw [leftMin]
    split
    · exact le_refl r
    · rw [fmin_eq_min]; exact min_le_left _ _
  | j + 1, r => by
    rw [leftMin]
    split
    · exact le_refl r
    · exact le_trans (leftMin_le_init dt c t j _)
        (by rw [fmin_eq_min]; exact min_le_left _ _)

theorem rightGo_le_init (dt t : ℚ) :
    ∀ (l : List radius_theta) (r : ℚ), rightGo dt t l r ≤ r
  | [], r => le_refl r
  | p :: ps, r => by
    rw [rightGo]
    split
    · exact le_refl r
    · exact le_trans (rightGo_le_init dt t ps _)
        (by rw [fmin_eq_min]; exact min_le_left _ _)

theorem rightMin_le_init (dt : ℚ) (c : List radius_theta) (t : ℚ)
    (j : ℕ) (r : ℚ) : rightMin dt c t j r ≤ r :=
  rightGo_le_init dt t _ r

/-- The leftward scan's running minimum is bounded by the radius of
every index it reaches: every `k ≤ j` all of whose successors up to
`j` stay within the window. -/
theorem leftMin_le (dt : ℚ) (c : List radius_theta) (t : ℚ) :
    ∀ (j : ℕ) (r : ℚ) (k : ℕ), k ≤ j →
      (∀ m, k ≤ m → m ≤ j → fabs ((nth c m).theta - t) ≤ dt) →
      leftMin dt c t j r ≤ (nth c k).radius
  | 0, r, k, hk, hall => by
    interval_cases k
    rw [leftMin, if_neg (not_lt.mpr (hall 0 le_rfl le_rfl)), fmin_eq_min]
    exact min_le_right _ _
  | j + 1, r, k, hk, hall => by
    rw [leftMin, if_neg (not_lt.mpr (hall (j + 1) (by omega) le_rfl))]
    rcases Nat.lt_or_ge k (j + 1) with hlt | hge
    · exact leftMin_le dt c t j _ k (by omega)
        (fun m h1 h2 => hall m h1 (by omega))
    · have : k = j + 1 := by omega
      subst this
      exact le_trans (leftMin_le_init dt c t j _)
        (by rw [fmin_eq_min]; exact min_le_right _ _)

/-- The leftward scan's result is either its initial value or the
radius at some reached index. -/
theorem leftMin_cases (dt : ℚ) (c : List radius_theta) (t : ℚ) :
    ∀ (j : ℕ) (r : ℚ), leftMin dt c t j r = r ∨
      ∃ k, k ≤ j ∧ (∀ m, k ≤ m → m ≤ j → fabs ((nth c m).theta - t) ≤ dt) ∧
        leftMin dt c t j r = (nth c k).radius
  | 0, r => by
    rw [leftMin]
    split
    · exact Or.inl rfl
    · rw [fmin_eq_min]
      rcases min_cases r (nth c 0).radius with ⟨h, _⟩ | ⟨h, _⟩
      · exact Or.inl h
      · refine Or.inr ⟨0, le_rfl, ?_, h⟩
        intro m h1 h2
        have : m = 0 := by omega
        subst this
        exact not_lt.mp (by assumption)
  | j + 1, r => by
    rw [leftMin]
    split
    · exact Or.inl rfl
    · have hwin : fabs ((nth c (j + 1)).theta - t) ≤ dt :=
        not_lt.mp (by assumption)
      rcases leftMin_cases dt c t j (fmin r (nth c (j + 1)).radius) with h | ⟨k, hk, hall, h⟩
      · rw [h, fmin_eq_min]
        rcases min_cases r (nth c (j + 1)).radius with ⟨h2, _⟩ | ⟨h2, _⟩
        · exact Or.inl h2
        · refine Or.inr ⟨j + 1, le_rfl, ?_, h2⟩
          intro m h1 h2'
          have : m = j + 1 := by omega
          subst this; exact hwin
      · refine Or.inr ⟨k, by omega, ?_, h⟩
        intro m h1 h2
        rcases Nat.lt_or_ge m (j + 1) with hlt | hge
        · exact hall m h1 (by omega)
        · have : m = j + 1 := by omega
          subst this; exact hwin

/-- The rightward scan's running minimum is bounded by the radius of
every element it reaches. -/
theorem rightGo_le (dt t : ℚ) :
    ∀ (l : List radius_theta) (r : ℚ) (k : ℕ) (hk : k < l.length),
      (∀ m (hm : m < l.length), m ≤ k → fabs ((l.get ⟨m, hm⟩).theta - t) ≤ dt) →
      rightGo dt t l r ≤ (l.get ⟨k, hk⟩).radius
  | [], _, k, hk, _ => absurd hk (by simp)
  | p :: ps, r, k, hk, hall => by
    have h0 : fabs (p.theta - t) ≤ dt := by
      simpa using hall 0 (by simp) (Nat.zero_le k)
    rw [rightGo, if_neg (not_lt.mpr h0)]
    match k with
    | 0 =>
      exact le_trans (rightGo_le_init dt t ps _)
        (by rw [fmin_eq_min]; exact min_le_right _ _)
    | k + 1 =>
      exact rightGo_le dt t ps _ k (by simpa using hk)
        (fun m hm h1 => hall (m + 1) (by simpa using hm) (by omega))

/-- The rightward scan's result is either its initial value or the
radius at some reached element. -/
theorem rightGo_cases (dt t : ℚ) :
    ∀ (l : List radius_theta) (r : ℚ), rightGo dt t l r = r ∨
      ∃ k, ∃ hk : k < l.length,
        (∀ m (hm : m < l.length), m ≤ k → fabs ((l.get ⟨m, hm⟩).theta - t) ≤ dt) ∧
        rightGo dt t l r = (l.get ⟨k, hk⟩).radius
  | [], r => Or.inl rfl
  | p :: ps, r => by
    rw [rightGo]
    split
    · exact Or.inl rfl
    · have hwin : fabs (p.theta - t) ≤ dt := not_lt.mp (by assumption)
      rcases rightGo_cases dt t ps (fmin r p.radius) with h | ⟨k, hk, hall, h⟩
      · rw [h, fmin_eq_min]
        rcases min_cases r p.radius with ⟨h2, _⟩ | ⟨h2, _⟩
        · exact Or.inl h2
        · refine Or.inr ⟨0, by simp, ?_, h2⟩
          intro m hm h1
          have : m = 0 := by omega
          subst this; exact hwin
      · refine Or.inr ⟨k + 1, by simpa using hk, ?_, h⟩
        intro m hm h1
        match m with
        | 0 => exact hwin
        | m + 1 => exact hall m (by simpa using hm) (by omega)

/-! ## Lemmas about the smoothing pass as a whole -/

theorem nth_eq_get (l : List radius_theta) (i : ℕ) (h : i < l.length) :
    nth l i = l.get ⟨i, h⟩ := by
  simp [nth, List.getD_eq_getElem?_getD, List.getElem?_eq_getElem h,
    List.get_eq_getElem]

@[simp] theorem compute_smallest_length (dt : ℚ) (s : List radius_theta) :
    (compute_smallest_r_within_delta_theta dt s).length = s.length := by
  simp [compute_smallest_r_within_delta_theta]

theorem nth_compute_smallest (dt : ℚ) (s : List radius_theta) (i : ℕ)
    (h : i < s.length) :
    nth (compute_smallest_r_within_delta_theta dt s) i =
      { radius := rightMin dt s (nth s i).theta i
          (leftMin dt s (nth s i).theta i (nth s i).radius),
        theta := (nth s i).theta } := by
  have h2 : i < (compute_smallest_r_within_delta_theta dt s).length := by simpa
  rw [nth_eq_get _ _ h2]
  simp [compute_smallest_r_within_delta_theta, List.get_eq_getElem]

/-- The smoothing pass leaves the bearing of every sample unchanged. -/
theorem compute_smallest_map_theta (dt : ℚ) (s : List radius_theta) :
    (compute_smallest_r_within_delta_theta dt s).map radius_theta.theta =
      s.map radius_theta.theta := by
  apply List.ext_getElem (by simp)
  intro i h1 h2
  have h3 : i < s.length := by simpa using h2
  simp only [List.getElem_map]
  have := nth_compute_smallest dt s i h3
  rw [nth_eq_get _ _ (by simpa : i < (compute_smallest_r_within_delta_theta dt s).length),
    nth_eq_get _ _ h3] at this
  simp only [List.get_eq_getElem] at this
  rw [this]

/-- The smoothing pass never increases a radius and never changes a
bearing: each output sample relates index-wise to its input sample. -/
theorem compute_smallest_forall₂ (dt : ℚ) (s : List radius_theta) :
    List.Forall₂ (fun a b => b.radius ≤ a.radius ∧ b.theta = a.theta) s
      (compute_smallest_r_within_delta_theta dt s) := by
  rw [List.forall₂_iff_get]
  refine ⟨by simp, ?_⟩
  intro i h1 h2
  have key := nth_compute_smallest dt s i h1
  rw [nth_eq_get _ _ (by simpa : i < (compute_smallest_r_within_delta_theta dt s).length)] at key
  rw [key]
  refine ⟨?_, by rw [nth_eq_get _ _ h1]⟩
  calc rightMin dt s (nth s i).theta i (leftMin dt s (nth s i).theta i (nth s i).radius)
      ≤ leftMin dt s (nth s i).theta i (nth s i).radius := rightMin_le_init _ _ _ _ _
    _ ≤ (nth s i).radius := leftMin_le_init _ _ _ _ _
    _ = (s.get ⟨i, h1⟩).radius := by rw [nth_eq_get _ _ h1]

/-- `SortedRT` only depends on the sequence of bearings. -/
theorem sortedRT_iff_map (l : List radius_theta) :
    SortedRT l ↔ (l.map radius_theta.theta).Pairwise (· ≤ ·) := by
  rw [SortedRT, List.pairwise_map]

/-- Smoothing a theta-sorted sequence yields a theta-sorted sequence. -/
theorem sortedRT_compute_smallest (dt : ℚ) (s : List radius_theta)
    (h : SortedRT s) : SortedRT (compute_smallest_r_within_delta_theta dt s) := by
  rw [sortedRT_iff_map, compute_smallest_map_theta, ← sortedRT_iff_map]
  exact h

/-- The sort helper produces a theta-sorted sequence. -/
theorem sortedRT_thetaAscendingSortScanRT (l : List radius_theta) :
    SortedRT (thetaAscendingSortScanRT l) := by
  have h := @List.sorted_mergeSort radius_theta
    (fun first second : radius_theta => decide (first.theta ≤ second.theta))
    (fun a b c hab hbc => by
      simp only [decide_eq_true_eq] at *
      exact le_trans hab hbc)
    (fun a b => by
      simp only [Bool.or_eq_true, decide_eq_true_eq]
      exact le_total a.theta b.theta) l
  exact h.imp fun hab => by simpa using hab

@[simp] theorem thetaAscendingSortScanRT_length (l : List radius_theta) :
    (thetaAscendingSortScanRT l).length = l.length := by
  simp [thetaAscendingSortScanRT]

/-- Index `j` lies in the contiguous run the two scans of the filter
reach from index `i`: either `j` is left of `i` and every index
between them (inclusive) is within the `dt`-window of `theta_i`, or
symmetrically on the right. -/
def InRun (dt : ℚ) (s : List radius_theta) (i j : ℕ) : Prop :=
  j < s.length ∧
    ((j ≤ i ∧ ∀ m, j ≤ m → m ≤ i → fabs ((nth s m).theta - (nth s i).theta) ≤ dt) ∨
     (i ≤ j ∧ ∀ m, i ≤ m → m ≤ j → fabs ((nth s m).theta - (nth s i).theta) ≤ dt))

theorem get_drop_eq_nth (s : List radius_theta) (i m : ℕ)
    (hm : m < (s.drop i).length) :
    (s.drop i).get ⟨m, hm⟩ = nth s (i + m) := by
  have h : i + m < s.length := by
    simp only [List.length_drop] at hm; omega
  rw [nth_eq_get _ _ h]
  simp [List.get_eq_getElem, List.getElem_drop]

/-- The smoothed radius at `i` is a lower bound of the original radii
over the whole run reached by the two scans. -/
theorem compute_smallest_radius_le (dt : ℚ) (s : List radius_theta) (i : ℕ)
    (hi : i < s.length) (j : ℕ) (hj : InRun dt s i j) :
    (nth (compute_smallest_r_within_delta_theta dt s) i).radius ≤
      (nth s j).radius := by
  rw [nth_compute_smallest dt s i hi]
  obtain ⟨hjlen, hside⟩ := hj
  rcases hside with ⟨hji, hcond⟩ | ⟨hij, hcond⟩
  · exact le_trans (rightMin_le_init _ _ _ _ _)
      (leftMin_le dt s (nth s i).theta i _ j hji hcond)
  · show rightGo dt (nth s i).theta (s.drop i) _ ≤ _
    have hk : j - i < (s.drop i).length := by
      simp only [List.length_drop]; omega
    have := rightGo_le dt (nth s i).theta (s.drop i)
      (leftMin dt s (nth s i).theta i (nth s i).radius) (j - i) hk
      (fun m hm h1 => by
        rw [get_drop_eq_nth s i m hm]
        exact hcond (i + m) (by omega) (by omega))
    rwa [get_drop_eq_nth s i (j - i) hk, Nat.add_sub_cancel' hij] at this

/-- The smoothed radius at `i` is attained at some index of the run
(in particular at `i` itself when both scans stop immediately). -/
theorem compute_smallest_radius_attained (dt : ℚ) (s : List radius_theta)
    (hdt : 0 ≤ dt) (i : ℕ) (hi : i < s.length) :
    ∃ j, InRun dt s i j ∧
      (nth (compute_smallest_r_within_delta_theta dt s) i).radius =
        (nth s j).radius := by
  rw [nth_compute_smallest dt s i hi]
  have hself : fabs ((nth s i).theta - (nth s i).theta) ≤ dt := by
    rw [fabs_eq_abs, sub_self, abs_zero]; exact hdt
  rcases rightGo_cases dt (nth s i).theta (s.drop i)
      (leftMin dt s (nth s i).theta i (nth s i).radius) with h | ⟨k, hk, hall, h⟩
  · rcases leftMin_cases dt s (nth s i).theta i (nth s i).radius
        with h2 | ⟨k, hki, hall2, h2⟩
    · refine ⟨i, ⟨hi, Or.inl ⟨le_rfl, ?_⟩⟩, ?_⟩
      · intro m h1 h2'
        have : m = i := by omega
        subst this; exact hself
      · show rightGo dt (nth s i).theta (s.drop i) _ = _
        rw [h, h2]
    · refine ⟨k, ⟨by omega, Or.inl ⟨hki, hall2⟩⟩, ?_⟩
      show rightGo dt (nth s i).theta (s.drop i) _ = _
      rw [h, h2]
  · have hklen : k < s.length - i := by simpa using hk
    refine ⟨i + k, ⟨by omega, Or.inr ⟨by omega, ?_⟩⟩, ?_⟩
    · intro m h1 h2'
      have hm : m - i < (s.drop i).length := by
        simp only [List.length_drop]; omega
      have := hall (m - i) hm (by omega)
      rwa [get_drop_eq_nth s i (m - i) hm, Nat.add_sub_cancel' h1] at this
    · show rightGo dt (nth s i).theta (s.drop i) _ = _
      rw [h, get_drop_eq_nth s i k hk]

/-! ## Lemmas about the stateful accessors -/

/-- The polar sequence `getScanRT` smooths and returns: the stored (or
freshly derived) sequence after the conditional sort, i.e. the state
of `scan_rt_` at the entry of the smoothing step. -/
def ScanMessage.preSmoothedRT (hypotf atan2f : ℚ → ℚ → ℚ) (m : ScanMessage)
    (need_sort : Bool) : List radius_theta :=
  let rt :=
    if m.scan_rt.isEmpty && !m.scan_xy.isEmpty then
      scanXYtoRT hypotf atan2f m.scan_xy
    else m.scan_rt
  let sorted1 :=
    if m.scan_rt.isEmpty && !m.scan_xy.isEmpty then false else m.sorted_by_theta
  if need_sort && !sorted1 then thetaAscendingSortScanRT rt else rt

theorem getScanRT_fst_eq (hf af : ℚ → ℚ → ℚ) (dt : ℚ) (m : ScanMessage)
    (need_sort : Bool) :
    (ScanMessage.getScanRT hf af dt m need_sort).fst =
      compute_smallest_r_within_delta_theta dt
        (m.preSmoothedRT hf af need_sort) := by
  simp only [ScanMessage.getScanRT, ScanMessage.preSmoothedRT]
  by_cases h1 : (m.scan_rt.isEmpty && !m.scan_xy.isEmpty) = true <;>
    simp only [h1, if_pos, if_neg, Bool.false_eq_true, ite_true, ite_false] <;>
    split <;> rfl

theorem getScanRT_snd_rt (hf af : ℚ → ℚ → ℚ) (dt : ℚ) (m : ScanMessage)
    (need_sort : Bool) :
    ((ScanMessage.getScanRT hf af dt m need_sort).snd).scan_rt =
      (ScanMessage.getScanRT hf af dt m need_sort).fst := rfl

theorem getScanRT_snd_xy (hf af : ℚ → ℚ → ℚ) (dt : ℚ) (m : ScanMessage)
    (need_sort : Bool) :
    ((ScanMessage.getScanRT hf af dt m need_sort).snd).scan_xy = m.scan_xy := by
  simp only [ScanMessage.getScanRT]
  split <;> split <;> rfl

theorem getScanRT_snd_sorted (hf af : ℚ → ℚ → ℚ) (dt : ℚ) (m : ScanMessage) :
    ((ScanMessage.getScanRT hf af dt m true).snd).sorted_by_theta = true := by
  simp only [ScanMessage.getScanRT]
  by_cases h1 : (m.scan_rt.isEmpty && !m.scan_xy.isEmpty) = true
  · simp [h1]
  · simp only [h1, Bool.false_eq_true, ite_false]
    by_cases h2 : m.sorted_by_theta = true
    · simp [h2]
    · have h3 : m.sorted_by_theta = false := by
        cases h : m.sorted_by_theta
        · rfl
        · exact absurd h h2
      simp [h3]

/-- After any `getScanRT` call the conversion branch of a subsequent
call cannot fire: the returned state never has an empty polar sequence
next to a non-empty Cartesian one. -/
theorem getScanRT_no_rederive (hf af : ℚ → ℚ → ℚ) (dt : ℚ) (m : ScanMessage)
    (need_sort : Bool) :
    (((ScanMessage.getScanRT hf af dt m need_sort).snd).scan_rt.isEmpty &&
      !((ScanMessage.getScanRT hf af dt m need_sort).snd).scan_xy.isEmpty) = false := by
  rw [getScanRT_snd_rt, getScanRT_fst_eq, getScanRT_snd_xy]
  by_cases hxy : m.scan_xy = []
  · simp [hxy]
  · by_cases hrt : m.scan_rt = []
    · have : (m.scan_rt.isEmpty && !m.scan_xy.isEmpty) = true := by
        simp [hrt, hxy]
      have hlen : (m.preSmoothedRT hf af need_sort).length = m.scan_xy.length := by
        simp only [ScanMessage.preSmoothedRT, this, if_pos]
        split <;> simp [scanXYtoRT]
      have : (compute_smallest_r_within_delta_theta dt
          (m.preSmoothedRT hf af need_sort)).length ≠ 0 := by
        simp only [compute_smallest_length, hlen]
        simpa [List.length_eq_zero] using hxy
      simp only [Bool.and_eq_false_imp, List.isEmpty_iff]
      intro hc
      exact absurd (by simp [hc]) this
    · have : (m.scan_rt.isEmpty && !m.scan_xy.isEmpty) = false := by
        simp [hrt]
      have hlen : (m.preSmoothedRT hf af need_sort).length = m.scan_rt.length := by
        simp only [ScanMessage.preSmoothedRT, this, Bool.false_eq_true, ite_false]
        split <;> simp
      have : (compute_smallest_r_within_delta_theta dt
          (m.preSmoothedRT hf af need_sort)).length ≠ 0 := by
        simp only [compute_smallest_length, hlen]
        simpa [List.length_eq_zero] using hrt
      simp only [Bool.and_eq_false_imp, List.isEmpty_iff]
      intro hc
      exact absurd (by simp [hc]) this

/-- A `getScanRT` call on the state returned by a `getScanRT true`
call: the conversion branch cannot fire and the sort branch is
skipped (the flag already reads sorted), so the call just re-smooths
the stored — already smoothed — polar sequence, for either value of
`need_sort`. -/
theorem getScanRT_again (hf af : ℚ → ℚ → ℚ) (dt : ℚ) (m : ScanMessage)
    (need_sort : Bool) :
    ScanMessage.getScanRT hf af dt ((ScanMessage.getScanRT hf af dt m true).snd)
        need_sort =
      (compute_smallest_r_within_delta_theta dt
          (((ScanMessage.getScanRT hf af dt m true).snd).scan_rt),
        { (ScanMessage.getScanRT hf af dt m true).snd with
          scan_rt := compute_smallest_r_within_delta_theta dt
            (((ScanMessage.getScanRT hf af dt m true).snd).scan_rt) }) := by
  have h1 := getScanRT_no_rederive hf af dt m true
  have h2 := getScanRT_snd_sorted hf af dt m
  rw [ScanMessage.getScanRT]
  simp only [h1, h2, Bool.false_eq_true, ite_false, Bool.not_true,
    Bool.and_false, ite_false]

/-- Exactly one of the two backing sequences is non-empty, or both
are empty. -/
def ExclusiveOrEmpty (m : ScanMessage) : Prop :=
  (m.scan_xy ≠ [] ∧ m.scan_rt = []) ∨ (m.scan_xy = [] ∧ m.scan_rt ≠ []) ∨
    (m.scan_xy = [] ∧ m.scan_rt = [])

/-! ## The claims -/

/-- Claim C1: for every theta-sorted polar sequence, the smoothing
pass replaces each sample's radius with the minimum original radius
over the contiguous run of indices reachable leftward and rightward
from it within the `dt` bearing window (the sample itself included),
computed against the frozen pre-smoothing snapshot; in particular the
three samples at bearings `{0, dt/2, 2*dt}` with radii `{5, 1, 5}`
smooth to radii `{1, 1, 5}`. -/
theorem claim_C1 :
    (∀ (dt : ℚ) (s : List radius_theta), 0 ≤ dt → SortedRT s →
      ∀ i, i < s.length →
        (∀ j, InRun dt s i j →
          (nth (compute_smallest_r_within_delta_theta dt s) i).radius ≤
            (nth s j).radius) ∧
        (∃ j, InRun dt s i j ∧
          (nth (compute_smallest_r_within_delta_theta dt s) i).radius =
            (nth s j).radius)) ∧
    (∀ dt : ℚ, 0 < dt →
      compute_smallest_r_within_delta_theta dt
          [⟨5, 0⟩, ⟨1, dt / 2⟩, ⟨5, 2 * dt⟩] =
        [⟨1, 0⟩, ⟨1, dt / 2⟩, ⟨5, 2 * dt⟩]) := by
  constructor
  · intro dt s hdt _ i hi
    exact ⟨fun j hj => compute_smallest_radius_le dt s i hi j hj,
      compute_smallest_radius_attained dt s hdt i hi⟩
  · intro dt hdt
    have h3 : List.range 3 = [0, 1, 2] := rfl
    have hA : ¬(dt / 2 < 0) := by linarith
    have hB : ¬(2 * dt < 0) := by linarith
    have hC : -(dt / 2) < 0 := by linarith
    have hD : dt / 2 - 2 * dt < 0 := by linarith
    have hE : ¬(2 * dt - dt / 2 < 0) := by linarith
    have hF : ¬(dt < dt / 2) := by linarith
    have hG : dt < 2 * dt := by linarith
    have hH : dt < -(dt / 2 - 2 * dt) := by linarith
    have hI : dt < 2 * dt - dt / 2 := by linarith
    have hJ : ¬(dt < 0) := by linarith
    norm_num [compute_smallest_r_within_delta_theta, h3, nth, leftMin,
      rightMin, rightGo, fabs, fmin, hA, hB, hC, hD, hE, hF, hG, hH, hI, hJ]

/-- Witness for C1 at `dt = 1`, the sorted three-sample sequence
`[(5, 0), (1, 1/2), (5, 2)]` and index `0`. -/
theorem claim_C1_witness :
    ((0 : ℚ) ≤ 1 ∧ SortedRT [⟨5, 0⟩, ⟨1, 1 / 2⟩, ⟨5, 2⟩] ∧
      0 < ([⟨5, 0⟩, ⟨1, 1 / 2⟩, ⟨5, 2⟩] : List radius_theta).length ∧
      ((∀ j, InRun 1 [⟨5, 0⟩, ⟨1, 1 / 2⟩, ⟨5, 2⟩] 0 j →
          (nth (compute_smallest_r_within_delta_theta 1
              [⟨5, 0⟩, ⟨1, 1 / 2⟩, ⟨5, 2⟩]) 0).radius ≤
            (nth [⟨5, 0⟩, ⟨1, 1 / 2⟩, ⟨5, 2⟩] j).radius) ∧
        (∃ j, InRun 1 [⟨5, 0⟩, ⟨1, 1 / 2⟩, ⟨5, 2⟩] 0 j ∧
          (nth (compute_smallest_r_within_delta_theta 1
              [⟨5, 0⟩, ⟨1, 1 / 2⟩, ⟨5, 2⟩]) 0).radius =
            (nth [⟨5, 0⟩, ⟨1, 1 / 2⟩, ⟨5, 2⟩] j).radius))) ∧
    ((0 : ℚ) < 1 ∧
      compute_smallest_r_within_delta_theta 1
          [⟨5, 0⟩, ⟨1, 1 / 2⟩, ⟨5, 2 * 1⟩] =
        [⟨1, 0⟩, ⟨1, 1 / 2⟩, ⟨5, 2 * 1⟩]) := by
  have hs : SortedRT ([⟨5, 0⟩, ⟨1, 1 / 2⟩, ⟨5, 2⟩] : List radius_theta) := by
    norm_num [SortedRT]
  exact ⟨⟨by norm_num, hs, by norm_num,
      claim_C1.1 1 [⟨5, 0⟩, ⟨1, 1 / 2⟩, ⟨5, 2⟩] (by norm_num) hs 0 (by norm_num)⟩,
    by norm_num, claim_C1.2 1 (by norm_num)⟩

/-- Claim C2: immediately after any set or append operation, on any
prior state and any arguments, exactly one backing sequence is
non-empty, or both are empty. -/
theorem claim_C2 : ∀ (m : ScanMessage) (xys : List x_y)
    (rts : List radius_theta) (xy : x_y) (rt : radius_theta)
    (is_sorted in_order : Bool),
    ExclusiveOrEmpty (m.setScanXY xys) ∧
    ExclusiveOrEmpty (m.setScanRT rts is_sorted) ∧
    ExclusiveOrEmpty (m.scan_xy_push_back xy) ∧
    ExclusiveOrEmpty (m.scan_rt_push_back rt in_order) := by
  intro m xys rts xy rt is_sorted in_order
  refine ⟨?_, ?_, ?_, ?_⟩
  · rcases eq_or_ne xys [] with h | h <;>
      simp [ExclusiveOrEmpty, ScanMessage.setScanXY, h]
  · rcases eq_or_ne rts [] with h | h <;>
      simp [ExclusiveOrEmpty, ScanMessage.setScanRT, h]
  · simp [ExclusiveOrEmpty, ScanMessage.scan_xy_push_back]
  · simp [ExclusiveOrEmpty, ScanMessage.scan_rt_push_back]

/-- Claim C3: one smoothing pass never increases any radius, never
changes any bearing, and preserves the length of the sequence. -/
theorem claim_C3 : ∀ (dt : ℚ) (s : List radius_theta),
    (compute_smallest_r_within_delta_theta dt s).length = s.length ∧
    List.Forall₂ (fun a b => b.radius ≤ a.radius ∧ b.theta = a.theta) s
      (compute_smallest_r_within_delta_theta dt s) :=
  fun dt s => ⟨compute_smallest_length dt s, compute_smallest_forall₂ dt s⟩

/-- Claim C4: every call of the polar accessor applies the smoothing
pass to the stored sequence (after the conditional derivation and
sort) before returning it, for both values of the sort request, and a
repeated call with no intervening write re-applies the smoothing to
the already-smoothed stored sequence. -/
theorem claim_C4 : ∀ (hypotf atan2f : ℚ → ℚ → ℚ) (dt : ℚ)
    (m : ScanMessage) (need_sort : Bool),
    (ScanMessage.getScanRT hypotf atan2f dt m need_sort).fst =
      compute_smallest_r_within_delta_theta dt
        (m.preSmoothedRT hypotf atan2f need_sort) ∧
    ((ScanMessage.getScanRT hypotf atan2f dt m need_sort).snd).scan_rt =
      (ScanMessage.getScanRT hypotf atan2f dt m need_sort).fst ∧
    (ScanMessage.getScanRT hypotf atan2f dt
        ((ScanMessage.getScanRT hypotf atan2f dt m true).snd) need_sort).fst =
      compute_smallest_r_within_delta_theta dt
        (((ScanMessage.getScanRT hypotf atan2f dt m true).snd).scan_rt) := by
  intro hf af dt m b
  refine ⟨getScanRT_fst_eq hf af dt m b, getScanRT_snd_rt hf af dt m b, ?_⟩
  rw [getScanRT_again hf af dt m b]

/-- Counterexample to C5 as stated: the sorted-state flag is a
caller's unverified assertion, so a frame built by
`setScanRT(data, is_sorted := true)` with unsorted data makes the
first `getScanRT(true)` call skip the sort and return a sequence that
is not ascending in theta. -/
theorem claim_C5_counterexample :
    ¬ SortedRT ((ScanMessage.getScanRT (fun a _ => a) (fun a _ => a) 1
      ((ScanMessage.mkEmpty false).setScanRT [⟨1, 5⟩, ⟨1, 0⟩] true)
      true).fst) := by
  have hstate : (ScanMessage.mkEmpty false).setScanRT [⟨1, 5⟩, ⟨1, 0⟩] true =
      { tp := 0, scan_xy := [], scan_rt := [⟨1, 5⟩, ⟨1, 0⟩],
        sorted_by_theta := true } := rfl
  rw [hstate]
  have heval : (ScanMessage.getScanRT (fun a _ => a) (fun a _ => a) 1
      { tp := 0, scan_xy := [], scan_rt := [⟨1, 5⟩, ⟨1, 0⟩],
        sorted_by_theta := true } true).fst = [⟨1, 5⟩, ⟨1, 0⟩] := by
    have h2 : List.range 2 = [0, 1] := rfl
    norm_num [ScanMessage.getScanRT, compute_smallest_r_within_delta_theta,
      h2, nth, leftMin, rightMin, rightGo, fabs, fmin]
  rw [heval]
  norm_num [SortedRT]

/-- Claim C5 (amended): provided the sort-state flag, when it reads
sorted at the start, truthfully describes the stored polar sequence,
a `getScanRT(true)` call returns a theta-ascending sequence, leaves
the flag reading sorted, and a second call with no intervening write
performs no sort: it behaves identically for both values of
`need_sort`. -/
theorem claim_C5 : ∀ (hypotf atan2f : ℚ → ℚ → ℚ) (dt : ℚ) (m : ScanMessage),
    (m.sorted_by_theta = true → SortedRT m.scan_rt) →
    SortedRT ((ScanMessage.getScanRT hypotf atan2f dt m true).fst) ∧
    ((ScanMessage.getScanRT hypotf atan2f dt m true).snd).sorted_by_theta = true ∧
    (∀ need_sort,
      ScanMessage.getScanRT hypotf atan2f dt
          ((ScanMessage.getScanRT hypotf atan2f dt m true).snd) need_sort =
        ScanMessage.getScanRT hypotf atan2f dt
          ((ScanMessage.getScanRT hypotf atan2f dt m true).snd) false) := by
  intro hf af dt m htruth
  refine ⟨?_, getScanRT_snd_sorted hf af dt m,
    fun b => by rw [getScanRT_again, getScanRT_again]⟩
  rw [getScanRT_fst_eq]
  apply sortedRT_compute_smallest
  simp only [ScanMessage.preSmoothedRT]
  by_cases h1 : (m.scan_rt.isEmpty && !m.scan_xy.isEmpty) = true
  · simp [h1, sortedRT_thetaAscendingSortScanRT]
  · by_cases h2 : m.sorted_by_theta = true
    · simpa [h1, h2] using htruth h2
    · have h3 : m.sorted_by_theta = false := by
        cases h : m.sorted_by_theta
        · rfl
        · exact absurd h h2
      simp [h1, h3, sortedRT_thetaAscendingSortScanRT]

/-- Witness for C5: a frame built from unsorted polar data with the
flag left false (the truthful-flag hypothesis holds vacuously). -/
theorem claim_C5_witness :
    (((ScanMessage.mkRT [⟨2, 3⟩, ⟨2, 0⟩]).sorted_by_theta = true →
      SortedRT (ScanMessage.mkRT [⟨2, 3⟩, ⟨2, 0⟩]).scan_rt) ∧
    (SortedRT ((ScanMessage.getScanRT (fun a _ => a) (fun a _ => a) 1
        (ScanMessage.mkRT [⟨2, 3⟩, ⟨2, 0⟩]) true).fst) ∧
      ((ScanMessage.getScanRT (fun a _ => a) (fun a _ => a) 1
        (ScanMessage.mkRT [⟨2, 3⟩, ⟨2, 0⟩]) true).snd).sorted_by_theta = true ∧
      (∀ need_sort,
        ScanMessage.getScanRT (fun a _ => a) (fun a _ => a) 1
            ((ScanMessage.getScanRT (fun a _ => a) (fun a _ => a) 1
              (ScanMessage.mkRT [⟨2, 3⟩, ⟨2, 0⟩]) true).snd) need_sort =
          ScanMessage.getScanRT (fun a _ => a) (fun a _ => a) 1
            ((ScanMessage.getScanRT (fun a _ => a) (fun a _ => a) 1
              (ScanMessage.mkRT [⟨2, 3⟩, ⟨2, 0⟩]) true).snd) false))) := by
  have hhyp : (ScanMessage.mkRT [⟨2, 3⟩, ⟨2, 0⟩]).sorted_by_theta = true →
      SortedRT (ScanMessage.mkRT [⟨2, 3⟩, ⟨2, 0⟩]).scan_rt := by
    intro h
    simp [ScanMessage.mkRT] at h
  exact ⟨hhyp, claim_C5 (fun a _ => a) (fun a _ => a) 1
    (ScanMessage.mkRT [⟨2, 3⟩, ⟨2, 0⟩]) hhyp⟩

/-- Counterexample to C6 as stated: strict idempotence fails. On the
theta-sorted sequence with bearings `{0, 1, 2}` and radii `{5, 5, 1}`
at window half-width `1`, one pass yields radii `{5, 1, 1}` and a
second pass pulls the first radius down to `1`, so
smooth(smooth(s)) differs from smooth(s). -/
theorem claim_C6_counterexample :
    SortedRT [⟨5, 0⟩, ⟨5, 1⟩, ⟨1, 2⟩] ∧
    compute_smallest_r_within_delta_theta 1
        (compute_smallest_r_within_delta_theta 1 [⟨5, 0⟩, ⟨5, 1⟩, ⟨1, 2⟩]) ≠
      compute_smallest_r_within_delta_theta 1 [⟨5, 0⟩, ⟨5, 1⟩, ⟨1, 2⟩] := by
  have h3 : List.range 3 = [0, 1, 2] := rfl
  have e1 : compute_smallest_r_within_delta_theta 1 [⟨5, 0⟩, ⟨5, 1⟩, ⟨1, 2⟩] =
      [⟨5, 0⟩, ⟨1, 1⟩, ⟨1, 2⟩] := by
    norm_num [compute_smallest_r_within_delta_theta, h3, nth, leftMin,
      rightMin, rightGo, fabs, fmin]
  have e2 : compute_smallest_r_within_delta_theta 1 [⟨5, 0⟩, ⟨1, 1⟩, ⟨1, 2⟩] =
      [⟨1, 0⟩, ⟨1, 1⟩, ⟨1, 2⟩] := by
    norm_num [compute_smallest_r_within_delta_theta, h3, nth, leftMin,
      rightMin, rightGo, fabs, fmin]
  refine ⟨by norm_num [SortedRT], ?_⟩
  rw [e1, e2]
  norm_num

/-- Claim C6 (amended): re-applying the smoothing pass to its own
output is harmless in the weaker sense the code supports: the second
pass never increases any radius, never changes any bearing, and
preserves the length — but it is not in general the identity on
already-smoothed data. -/
theorem claim_C6 : ∀ (dt : ℚ) (s : List radius_theta),
    (compute_smallest_r_within_delta_theta dt
        (compute_smallest_r_within_delta_theta dt s)).length =
      (compute_smallest_r_within_delta_theta dt s).length ∧
    List.Forall₂ (fun a b => b.radius ≤ a.radius ∧ b.theta = a.theta)
      (compute_smallest_r_within_delta_theta dt s)
      (compute_smallest_r_within_delta_theta dt
        (compute_smallest_r_within_delta_theta dt s)) :=
  fun dt s => ⟨by simp, compute_smallest_forall₂ dt _⟩

/-- Claim C7: on a frame with an empty Cartesian sequence and a
non-empty polar sequence, the Cartesian accessor returns the
index-preserving image of the polar sequence under
(r, theta) to (r cos theta, r sin theta), caches it, and leaves the
polar sequence in place, so both sequences are populated afterwards
(timestamp and flag untouched). -/
theorem claim_C7 : ∀ (cosf sinf : ℚ → ℚ) (m : ScanMessage),
    m.scan_xy = [] → m.scan_rt ≠ [] →
    (ScanMessage.getScanXY cosf sinf m).fst =
      m.scan_rt.map (RTtoXY cosf sinf) ∧
    ((ScanMessage.getScanXY cosf sinf m).snd).scan_xy =
      m.scan_rt.map (RTtoXY cosf sinf) ∧
    ((ScanMessage.getScanXY cosf sinf m).snd).scan_rt = m.scan_rt ∧
    ((ScanMessage.getScanXY cosf sinf m).snd).scan_xy ≠ [] ∧
    ((ScanMessage.getScanXY cosf sinf m).snd).scan_rt ≠ [] ∧
    ((ScanMessage.getScanXY cosf sinf m).snd).tp = m.tp ∧
    ((ScanMessage.getScanXY cosf sinf m).snd).sorted_by_theta =
      m.sorted_by_theta := by
  intro cosf sinf m hxy hrt
  have hcond : (m.scan_xy.isEmpty && !m.scan_rt.isEmpty) = true := by
    simp [hxy, hrt]
  simp [ScanMessage.getScanXY, hcond, scanRTtoXY, hxy, hrt]

/-- Witness for C7: a frame holding the single polar sample (1, 0). -/
theorem claim_C7_witness :
    ((ScanMessage.mkRT [⟨1, 0⟩]).scan_xy = [] ∧
      (ScanMessage.mkRT [⟨1, 0⟩]).scan_rt ≠ []) ∧
    ((ScanMessage.getScanXY (fun _ => 1) (fun _ => 0)
        (ScanMessage.mkRT [⟨1, 0⟩])).fst =
      (ScanMessage.mkRT [⟨1, 0⟩]).scan_rt.map
        (RTtoXY (fun _ => 1) (fun _ => 0)) ∧
    ((ScanMessage.getScanXY (fun _ => 1) (fun _ => 0)
        (ScanMessage.mkRT [⟨1, 0⟩])).snd).scan_xy =
      (ScanMessage.mkRT [⟨1, 0⟩]).scan_rt.map
        (RTtoXY (fun _ => 1) (fun _ => 0)) ∧
    ((ScanMessage.getScanXY (fun _ => 1) (fun _ => 0)
        (ScanMessage.mkRT [⟨1, 0⟩])).snd).scan_rt =
      (ScanMessage.mkRT [⟨1, 0⟩]).scan_rt ∧
    ((ScanMessage.getScanXY (fun _ => 1) (fun _ => 0)
        (ScanMessage.mkRT [⟨1, 0⟩])).snd).scan_xy ≠ [] ∧
    ((ScanMessage.getScanXY (fun _ => 1) (fun _ => 0)
        (ScanMessage.mkRT [⟨1, 0⟩])).snd).scan_rt ≠ [] ∧
    ((ScanMessage.getScanXY (fun _ => 1) (fun _ => 0)
        (ScanMessage.mkRT [⟨1, 0⟩])).snd).tp =
      (ScanMessage.mkRT [⟨1, 0⟩]).tp ∧
    ((ScanMessage.getScanXY (fun _ => 1) (fun _ => 0)
        (ScanMessage.mkRT [⟨1, 0⟩])).snd).sorted_by_theta =
      (ScanMessage.mkRT [⟨1, 0⟩]).sorted_by_theta) := by
  have h1 : (ScanMessage.mkRT [⟨1, 0⟩]).scan_xy = [] := rfl
  have h2 : (ScanMessage.mkRT [⟨1, 0⟩]).scan_rt ≠ [] := by
    simp [ScanMessage.mkRT]
  exact ⟨⟨h1, h2⟩, claim_C7 (fun _ => 1) (fun _ => 0)
    (ScanMessage.mkRT [⟨1, 0⟩]) h1 h2⟩

/-- Claim C8 (behavior at the failing inputs): the name-lookup
function returns the defensive fallback "unknown" for the valid
enumerator MANUAL (missing from the if/else chain), and the
misspelled "NORNAL" for NORMAL — while the other five enumerators map
to their names. -/
theorem claim_C8 :
    NaviStatusToString NaviStatus.MANUAL = "unknown" ∧
    NaviStatusToString NaviStatus.NORMAL = "NORNAL" ∧
    NaviStatusToString NaviStatus.LOST = "LOST" ∧
    NaviStatusToString NaviStatus.OBSTACLE_AVOID = "OBSTACLE_AVOID" ∧
    NaviStatusToString NaviStatus.STOP = "STOP" ∧
    NaviStatusToString NaviStatus.STANDBY = "STANDBY" ∧
    NaviStatusToString NaviStatus.LOST_RECOVERY = "LOST_RECOVERY" :=
  ⟨rfl, rfl, rfl, rfl, rfl, rfl, rfl⟩

/-- Claim C9: both accessors, called on a freshly constructed and
never-populated frame (no-argument or timestamp-only constructor),
return the empty sequence and leave both backing sequences empty, for
any sort request and any value of the indeterminate flag. -/
theorem claim_C9 : ∀ (uninit : Bool) (input_tp : ℚ) (cosf sinf : ℚ → ℚ)
    (hypotf atan2f : ℚ → ℚ → ℚ) (dt : ℚ) (need_sort : Bool),
    ScanMessage.getScanXY cosf sinf (ScanMessage.mkEmpty uninit) =
      ([], ScanMessage.mkEmpty uninit) ∧
    ScanMessage.getScanXY cosf sinf (ScanMessage.mkTP input_tp) =
      ([], ScanMessage.mkTP input_tp) ∧
    (ScanMessage.getScanRT hypotf atan2f dt (ScanMessage.mkEmpty uninit)
      need_sort).fst = [] ∧
    ((ScanMessage.getScanRT hypotf atan2f dt (ScanMessage.mkEmpty uninit)
      need_sort).snd).scan_xy = [] ∧
    ((ScanMessage.getScanRT hypotf atan2f dt (ScanMessage.mkEmpty uninit)
      need_sort).snd).scan_rt = [] ∧
    (ScanMessage.getScanRT hypotf atan2f dt (ScanMessage.mkTP input_tp)
      need_sort).fst = [] ∧
    ((ScanMessage.getScanRT hypotf atan2f dt (ScanMessage.mkTP input_tp)
      need_sort).snd).scan_xy = [] ∧
    ((ScanMessage.getScanRT hypotf atan2f dt (ScanMessage.mkTP input_tp)
      need_sort).snd).scan_rt = [] := by
  intro uninit input_tp cosf sinf hypotf atan2f dt need_sort
  cases need_sort <;> cases uninit <;>
    simp [ScanMessage.getScanXY, ScanMessage.getScanRT, ScanMessage.mkEmpty,
      ScanMessage.mkTP, thetaAscendingSortScanRT,
      compute_smallest_r_within_delta_theta]

/-- Claim C10 (behavior at the failing input): of the six
construction paths, five initialize the sort-state flag to false, but
the no-argument constructor leaves it indeterminate — the resulting
flag is whatever value the uninitialized memory held, and in
particular can read true. -/
theorem claim_C10 :
    (ScanMessage.mkEmpty true).sorted_by_theta = true ∧
    (ScanMessage.mkEmpty true).sorted_by_theta ≠ false ∧
    (ScanMessage.mkEmpty false).sorted_by_theta = false ∧
    (ScanMessage.mkTP 0).sorted_by_theta = false ∧
    (ScanMessage.mkXY [⟨1, 1⟩]).sorted_by_theta = false ∧
    (ScanMessage.mkRT [⟨1, 1⟩]).sorted_by_theta = false ∧
    (ScanMessage.mkXYTP [⟨1, 1⟩] 0).sorted_by_theta = false ∧
    (ScanMessage.mkRTTP [⟨1, 1⟩] 0).sorted_by_theta = false :=
  ⟨rfl, by simp [ScanMessage.mkEmpty], rfl, rfl, rfl, rfl, rfl, rfl⟩

end Navigation
